import Mathlib

/-!
Shallow embedding of the CallRail to Google Ads conversion-value pipeline:
the caller-aggregating CSV variant (netlify function, `src/unnamed/part_000`)
and the per-call spreadsheet variant
(`src/callrail-gads-bypass/netlify/functions/sync-gads-conversions.js`),
together with proofs of the specification claims.

Modelling conventions: JS numbers are rationals (ℚ); JS `Math.round` is
`⌊x + 1/2⌋` (round half toward positive infinity, as in JS); JS strings are
Lean `String`s; fields that may be `undefined`/`null` are `Option`s.  JS
truthiness is the `≠ ""` test on strings and the `≠ 0` test on numbers
(`NaN` is not modelled: it cannot arise from the modelled record fields).
`toLowerCase` is modelled on the ASCII range (`Char.toLower`), which covers
every string the pipeline compares or scans.
-/

attribute [local semireducible] Rat.mul Rat.inv Rat.add Rat.sub

namespace CallrailGads

/-- A CallRail tag is either a plain string or a structured object with a
`name`; the code stringifies `t.name || t`, so an object with a falsy name
renders as the JS object-to-string form. -/
inductive Tag where
  | str (s : String)
  | obj (name : Option String)
deriving DecidableEq

/-- The `transcription` field: absent, a raw string, or an object holding
an optional `text`. -/
inductive Transcription where
  | absent
  | str (s : String)
  | obj (text : Option String)
deriving DecidableEq

/-- The provider-variable `lead_score` field: absent/null, a number, a
string enum, or a structured object with optional `percent`, `score` and
`value` sub-fields (the CSV variant reads `percent`/`score`; the
spreadsheet variant reads `percent`/`value`). -/
inductive LeadScore where
  | absent
  | num (n : ℚ)
  | str (s : String)
  | obj (percent : Option ℚ) (score : Option ℚ) (value : Option String)
deriving DecidableEq

/-- A fetched call record, with exactly the fields the pipeline reads. -/
structure Call where
  id : String := ""
  start_time : String := ""
  duration : Option ℚ := none
  customer_phone_number : Option String := none
  source : Option String := none
  campaign : Option String := none
  landing_page_url : Option String := none
  gclid : Option String := none
  lead_score : LeadScore := .absent
  tags : Option (List Tag) := none
  note : Option String := none
  transcription : Transcription := .absent
deriving DecidableEq

/-- The five score tiers (stored as strings in JS; the five names are in
bijection with this enum). -/
inductive Tier where
  | very_poor
  | poor
  | fair
  | good
  | very_good
deriving DecidableEq

/-- CONFIG.products: product-size key to price, including the `default`
fallback entry. -/
def products : List (String × ℚ) :=
  [("3", 895), ("5", 1095), ("7", 1395), ("10", 1995),
   ("15", 2495), ("20", 2995), ("25", 3495), ("30", 3995),
   ("40", 4995), ("50", 5995), ("60", 6995), ("75", 8495), ("100", 10995),
   ("default", 3500)]

/-- Property lookup `CONFIG.products[k]` (absent key gives `none`). -/
def productsGet (k : String) : Option ℚ :=
  (products.find? (fun p => p.1 == k)).map Prod.snd

/-- Lookup `CONFIG.products[k] || CONFIG.products.default`: a falsy (absent or
zero) price falls back to the default price 3500. -/
def productPriceOf (k : String) : ℚ :=
  match productsGet k with
  | some v => if v = 0 then 3500 else v
  | none => 3500

/-- CONFIG.tiers: tier to value multiplier.  The JS reads
`CONFIG.tiers[tier] || 0`; every tier name is a key, and the lone zero
multiplier falls through `|| 0` to the same 0. -/
def tierMultiplier : Tier → ℚ
  | .very_poor => 0
  | .poor => 1 / 4
  | .fair => 1 / 2
  | .good => 3 / 4
  | .very_good => 1

/-- JS `Math.round`: round half toward positive infinity. -/
def jsRound (q : ℚ) : ℤ := ⌊q + 1 / 2⌋

/-- Rounding `Math.round(x * 100) / 100`: round to two decimals. -/
def round2 (q : ℚ) : ℚ := (jsRound (q * 100) : ℚ) / 100

/-- ASCII lowercasing of a string, modelling `String.prototype.toLowerCase`
on the character range the pipeline uses. -/
def toLowerStr (s : String) : String := String.mk (s.data.map Char.toLower)

/-- The string-enum score table of `getScorePercent`:
`map[leadScore.toLowerCase()] || 30` (every mapped value is truthy, and an
unrecognized key gives `undefined`, hence 30). -/
def scoreStringMap (t : String) : ℚ :=
  if t = "very_poor" then 10
  else if t = "poor" then 30
  else if t = "fair" then 50
  else if t = "good" then 70
  else if t = "very_good" then 90
  else 30

/-- Function `getScorePercent` (CSV variant): falsy score gives 30; an object reads
`percent || score || 30`; a number is passed through; a string goes through
the enum table. -/
def getScorePercent (c : Call) : ℚ :=
  match c.lead_score with
  | .absent => 30
  | .num n => if n = 0 then 30 else n
  | .str s => if s = "" then 30 else scoreStringMap (toLowerStr s)
  | .obj percent score _ =>
    match percent with
    | some p =>
      if p ≠ 0 then p
      else
        match score with
        | some sc => if sc ≠ 0 then sc else 30
        | none => 30
    | none =>
      match score with
      | some sc => if sc ≠ 0 then sc else 30
      | none => 30

/-- Function `getTier`: threshold chain on the score percent. -/
def getTier (scorePercent : ℚ) : Tier :=
  if scorePercent ≥ 80 then .very_good
  else if scorePercent ≥ 60 then .good
  else if scorePercent ≥ 40 then .fair
  else if scorePercent ≥ 20 then .poor
  else .very_poor

/-- JS regex `\s` on the ASCII range (the Unicode space code points are
unexercised by the pipeline's search text). -/
def jsSpace (c : Char) : Bool :=
  c == ' ' || c == '\t' || c == '\n' || c == '\r' || c == '\x0b' || c == '\x0c'

def litHp : List Char := ['h', 'p']

def litHorse : List Char := ['h', 'o', 'r', 's', 'e']

def litPower : List Char := ['p', 'o', 'w', 'e', 'r']

def litHorsepower : List Char := litHorse ++ litPower

/-- Match, at the current position, the tail of one hp pattern: each
literal may be preceded by `\s*`.  (`\d+` and `\s*` are greedy; no
backtracking can help because no literal starts with a digit or a space.) -/
def matchSeq : List (List Char) → List Char → Bool
  | [], _ => true
  | lit :: rest, l =>
    let l1 := l.dropWhile jsSpace
    lit.isPrefixOf l1 && matchSeq rest (l1.drop lit.length)

/-- Try one hp pattern anchored at the start of `l`: a nonempty digit run,
then the literal sequence; returns the captured digits. -/
def matchAt (lits : List (List Char)) (l : List Char) : Option (List Char) :=
  let ds := l.takeWhile Char.isDigit
  if ds.isEmpty then none
  else if matchSeq lits (l.dropWhile Char.isDigit) then some ds else none

/-- Search `searchText.match(pattern)`: leftmost match of the pattern, returning
the digit capture. -/
def findCapture (lits : List (List Char)) : List Char → Option (List Char)
  | [] => none
  | c :: rest =>
    match matchAt lits (c :: rest) with
    | some ds => some ds
    | none => findCapture lits rest

/-- The ordered hp pattern list of `detectProduct`:
`/(\d+)\s*hp/i`, `/(\d+)\s*horse\s*power/i`, `/(\d+)\s*horsepower/i`. -/
def hpPatterns : List (List (List Char)) := [[litHp], [litHorse, litPower], [litHorsepower]]

/-- Expression `t.name || t` for one tag, as stringified by `Array.prototype.join`. -/
def tagText : Tag → String
  | .str s => s
  | .obj name =>
    match name with
    | some s => if s = "" then "[object Object]" else s
    | none => "[object Object]"

/-- Expression `call.transcription?.text || call.transcription || ''` (CSV variant):
an object with a falsy `text` falls back to the object itself, which
`join` stringifies. -/
def transcriptionText (c : Call) : String :=
  match c.transcription with
  | .absent => ""
  | .str s => s
  | .obj text =>
    match text with
    | some s => if s = "" then "[object Object]" else s
    | none => "[object Object]"

/-- The lowercased search blob of the CSV variant's `detectProduct`:
transcript part, note and joined tag names, `join(' ')`-ed. -/
def searchText (c : Call) : String :=
  String.intercalate " "
    [transcriptionText c, c.note.getD "",
     String.intercalate " " ((c.tags.getD []).map tagText)]

/-- The pattern loop of `detectProduct`: for each pattern in order, take
its first match in the blob; if the capture is a truthy catalog entry
return it, otherwise move to the next pattern. -/
def tryPatterns (text : List Char) : List (List (List Char)) → String
  | [] => "default"
  | pat :: rest =>
    match findCapture pat text with
    | some ds =>
      match productsGet (String.mk ds) with
      | some v => if v = 0 then tryPatterns text rest else String.mk ds
      | none => tryPatterns text rest
    | none => tryPatterns text rest

/-- The lowercased character blob the CSV variant scans. -/
def blobOf (c : Call) : List Char := (toLowerStr (searchText c)).data

/-- Function `detectProduct` (CSV variant). -/
def detectProduct (c : Call) : String :=
  tryPatterns (blobOf c) hpPatterns

/-- Function `normalizePhone`: falsy phone gives the literal "unknown"; otherwise
strip non-digits and keep the last 10 (`slice(-10)`). -/
def normalizePhone (phone : Option String) : String :=
  match phone with
  | none => "unknown"
  | some p =>
    if p = "" then "unknown"
    else
      let digits := p.data.filter Char.isDigit
      String.mk (digits.drop (digits.length - 10))

def gclidLit : List Char := ['g', 'c', 'l', 'i', 'd', '=']

/-- Leftmost match of `/[?&]gclid=([^&]+)/`, returning the capture. -/
def gclidCapture : List Char → Option (List Char)
  | [] => none
  | c :: rest =>
    if (c == '?' || c == '&') && gclidLit.isPrefixOf rest then
      let cap := (rest.drop gclidLit.length).takeWhile (fun ch => ch ≠ '&')
      if cap.isEmpty then gclidCapture rest else some cap
    else gclidCapture rest

/-- The URL branch of `extractGclid`: only consulted for a truthy
`landing_page_url`. -/
def extractFromUrl (c : Call) : Option String :=
  match c.landing_page_url with
  | none => none
  | some u => if u = "" then none else (gclidCapture u.data).map String.mk

/-- Function `extractGclid`: the direct field when truthy, else the URL query
parameter, else absent. -/
def extractGclid (c : Call) : Option String :=
  match c.gclid with
  | some g => if g = "" then extractFromUrl c else some g
  | none => extractFromUrl c

/-- The phase-1 loop of the CSV handler: keep only calls with an
extractable click identifier, paired with that identifier, in input
order. -/
def withGclidPairs (calls : List Call) : List (Call × String) :=
  calls.filterMap (fun c => (extractGclid c).map (fun g => (c, g)))

/-- The grouping key of one (call, gclid) pair. -/
def keyOf (p : Call × String) : String := normalizePhone p.1.customer_phone_number

/-- Property creation order of `callerGroups`: a key is appended the first
time it is seen. -/
def insertKey (ks : List String) (k : String) : List String :=
  if k ∈ ks then ks else ks ++ [k]

/-- The keys of `callerGroups` in property creation (first-occurrence)
order. -/
def insertionKeys (pairs : List (Call × String)) : List String :=
  pairs.foldl (fun ks p => insertKey ks (keyOf p)) []

/-- Numeric value of an all-digit key. -/
def natVal (s : String) : Nat :=
  s.data.foldl (fun n c => n * 10 + (c.toNat - '0'.toNat)) 0

/-- Whether a key is a JS array-index property key (a canonical numeric
string below 2^32 - 1): such keys are enumerated first, in ascending
numeric order, by `for...in`. -/
def isArrayIndexKey (s : String) : Bool :=
  !s.data.isEmpty && s.data.all Char.isDigit &&
    (s == "0" || s.data.head? != some '0') && natVal s ≤ 4294967294

/-- The `for (const phone in callerGroups)` enumeration order: array-index
keys ascending by numeric value, then the remaining keys in creation
order. -/
def forInKeys (pairs : List (Call × String)) : List String :=
  let ks := insertionKeys pairs
  List.insertionSort (fun a b => natVal a ≤ natVal b) (ks.filter isArrayIndexKey) ++
    ks.filter (fun k => !isArrayIndexKey k)

/-- Bucket `callerGroups[phone]`: the pairs pushed under the key, in input
order. -/
def groupOf (pairs : List (Call × String)) (k : String) : List (Call × String) :=
  pairs.filter (fun p => keyOf p == k)

/-- The caller groups, in enumeration order. -/
def callerGroups (pairs : List (Call × String)) : List (String × List (Call × String)) :=
  (forInKeys pairs).map (fun k => (k, groupOf pairs k))

/-- The best-score / best-product loop over one group: the running best
score starts at 0 and is replaced on strictly greater scores; the running
product starts at "default" and is replaced on every non-default
detection. -/
def groupBest (g : List (Call × String)) : ℚ × String :=
  g.foldl
    (fun acc p =>
      ((if getScorePercent p.1 > acc.1 then getScorePercent p.1 else acc.1),
       (if detectProduct p.1 ≠ "default" then detectProduct p.1 else acc.2)))
    (0, "default")

/-- The group tier: `getTier(bestScore)`. -/
def groupTier (g : List (Call × String)) : Tier := getTier (groupBest g).1

/-- The group's chosen product. -/
def groupProduct (g : List (Call × String)) : String := (groupBest g).2

/-- Value `totalValue = Math.round(productPrice * multiplier * 100) / 100`. -/
def groupTotalValue (g : List (Call × String)) : ℚ :=
  round2 (productPriceOf (groupProduct g) * tierMultiplier (groupTier g))

/-- Value `perCallValue = Math.round((totalValue / group.length) * 100) / 100`. -/
def perCallValue (g : List (Call × String)) : ℚ :=
  round2 (groupTotalValue g / (g.length : ℚ))

/-- One output row of the CSV variant.  `tier` is stored as the enum
(bijective with the five JS tier strings). -/
structure Conversion where
  gclid : String
  conversionName : String
  conversionTime : String
  conversionValue : ℚ
  currency : String
  callId : String
  phone : String
  tier : Tier
  product : String
  productPrice : ℚ
  campaign : String
  source : String
  duration : ℚ
  leadScore : ℚ
deriving DecidableEq

/-- The run counters of the CSV handler. -/
structure RunStats where
  totalCalls : Nat
  withGclid : Nat
  withValue : Nat
  zeroValue : Nat
  totalValue : ℚ
deriving DecidableEq

/-- What one pipeline run produces from the fetched calls. -/
structure RunResult where
  conversions : List Conversion
  stats : RunStats
deriving DecidableEq

/-- The conversion pushed for one (call, gclid) pair of a value group.
`fmt` is `formatGoogleAdsTime` under the (fixed) host clock settings: a
pure function of the call's own `start_time` string. -/
def mkConversion (fmt : String → String) (g : List (Call × String))
    (p : Call × String) : Conversion :=
  { gclid := p.2
    conversionName := "Phone Call"
    conversionTime := fmt p.1.start_time
    conversionValue := perCallValue g
    currency := "USD"
    callId := p.1.id
    phone := p.1.customer_phone_number.getD ""
    tier := groupTier g
    product := groupProduct g
    productPrice := productPriceOf (groupProduct g)
    campaign := p.1.campaign.getD ""
    source := p.1.source.getD ""
    duration := p.1.duration.getD 0
    leadScore := (groupBest g).1 }

/-- The inner `for (const { call, gclid } of group)` push loop. -/
def groupConversions (fmt : String → String) (g : List (Call × String)) :
    List Conversion :=
  g.map (mkConversion fmt g)

/-- One iteration of the `for (const phone in callerGroups)` loop: a
non-positive total value zeroes the whole group, otherwise the split value
is pushed once per call and the counters advance once per call. -/
def stepGroup (fmt : String → String) (acc : RunResult)
    (kg : String × List (Call × String)) : RunResult :=
  let g := kg.2
  if groupTotalValue g ≤ 0 then
    { acc with stats := { acc.stats with zeroValue := acc.stats.zeroValue + g.length } }
  else
    { conversions := acc.conversions ++ groupConversions fmt g
      stats :=
        { acc.stats with
          withValue := acc.stats.withValue + g.length
          totalValue := acc.stats.totalValue + (g.length : ℚ) * perCallValue g } }

/-- The processing stage of the CSV handler, from the fetched call list to
the conversion list and run counters (`stats.totalCalls` is set from the
fetch, `stats.withGclid` is incremented once per call that yields an
identifier, and the group loop does the rest). -/
def processCalls (fmt : String → String) (calls : List Call) : RunResult :=
  let pairs := withGclidPairs calls
  (callerGroups pairs).foldl (stepGroup fmt)
    { conversions := []
      stats :=
        { totalCalls := calls.length
          withGclid := pairs.length
          withValue := 0
          zeroValue := 0
          totalValue := 0 } }

/-- What a group contributes to the conversion list. -/
def groupEmit (fmt : String → String) (kg : String × List (Call × String)) :
    List Conversion :=
  if groupTotalValue kg.2 ≤ 0 then [] else groupConversions fmt kg.2

/-- Concatenation of a list of lists (the successive appends of the group
loop). -/
def concatAll : List (List α) → List α
  | [] => []
  | l :: ls => l ++ concatAll ls

/-! ### The spreadsheet (per-call) sibling variant -/

/-- Expression `(call.lead_score || {}).value || 'unknown'` of the spreadsheet
variant's `calculateValue`: only a structured score with a truthy `value`
string produces anything but "unknown". -/
def sheetScoreValue (ls : LeadScore) : String :=
  match ls with
  | .obj _ _ (some v) => if v = "" then "unknown" else v
  | _ => "unknown"

/-- Expression `(call.lead_score || {}).percent || 0` of `calculateValue`. -/
def sheetScorePercent (ls : LeadScore) : ℚ :=
  match ls with
  | .obj (some p) _ _ => p
  | _ => 0

/-- The tier cascade of `calculateValue`: each branch tests the string
`value` against one tier name, or the `percent` against the band's upper
bound; the initial `'poor'` is kept only if every branch fails (in JS that
needs a `NaN` percent, which the rational model cannot produce). -/
def sheetTier (ls : LeadScore) : Tier :=
  let scoreValue := sheetScoreValue ls
  let scorePercent := sheetScorePercent ls
  if scoreValue = "very_poor" ∨ scorePercent < 20 then .very_poor
  else if scoreValue = "poor" ∨ scorePercent < 40 then .poor
  else if scoreValue = "fair" ∨ scorePercent < 60 then .fair
  else if scoreValue = "good" ∨ scorePercent < 80 then .good
  else if scoreValue = "very_good" ∨ scorePercent ≥ 80 then .very_good
  else .poor

/-- Expression `call.transcription?.text || ''` — the spreadsheet variant's
transcript part does not fall back to a raw string transcription. -/
def transcriptionTextSheet (c : Call) : String :=
  match c.transcription with
  | .obj (some s) => s
  | _ => ""

/-- The spreadsheet variant's search blob. -/
def searchTextSheet (c : Call) : String :=
  String.intercalate " "
    [transcriptionTextSheet c, c.note.getD "",
     String.intercalate " " ((c.tags.getD []).map tagText)]

/-- The spreadsheet variant's `detectProduct` (same patterns and loop as
the CSV variant, over its own blob). -/
def detectProductSheet (c : Call) : String :=
  tryPatterns (toLowerStr (searchTextSheet c)).data hpPatterns

/-- The record returned by `calculateValue`.  The JS also formats
`scoreValue`/`scorePercent` into one display string `leadScore`; the two
raw components are kept instead of the formatted text. -/
structure ValueData where
  value : ℚ
  tier : Tier
  scoreValue : String
  scorePercent : ℚ
  product : String
  productPrice : ℚ
  multiplier : ℚ
deriving DecidableEq

/-- Function `calculateValue` of the spreadsheet variant. -/
def calculateValue (c : Call) : ValueData :=
  let tier := sheetTier c.lead_score
  let product := detectProductSheet c
  let productPrice := productPriceOf product
  let multiplier := tierMultiplier tier
  { value := round2 (productPrice * multiplier)
    tier := tier
    scoreValue := sheetScoreValue c.lead_score
    scorePercent := sheetScorePercent c.lead_score
    product := product
    productPrice := productPrice
    multiplier := multiplier }

/-! ### Definitions taken from the specification's words

These are not translations of the source; they render the claim sentences
they are compared against, for the refutation of C6 and C7. -/

/-- Modelled from the spec (claim C6's reading of "continues trying the
remaining patterns / text"): the per-pattern search that skips past a
match whose capture is not a catalog key and keeps scanning the rest of
the text for that same pattern. -/
def findCatalogCapture (lits : List (List Char)) : List Char → Option String
  | [] => none
  | c :: rest =>
    match matchAt lits (c :: rest) with
    | some ds =>
      match productsGet (String.mk ds) with
      | some v => if v = 0 then findCatalogCapture lits rest else some (String.mk ds)
      | none => findCatalogCapture lits rest
    | none => findCatalogCapture lits rest

/-- Modelled from the spec: the claimed product detection, returning the
capture of the first pattern that matches anywhere in the blob with a
capture that exists as a catalog key. -/
def detectProductClaimed (c : Call) : String :=
  let text := blobOf c
  match findCatalogCapture [litHp] text with
  | some hp => hp
  | none =>
    match findCatalogCapture [litHorse, litPower] text with
    | some hp => hp
    | none =>
      match findCatalogCapture [litHorsepower] text with
      | some hp => hp
      | none => "default"

/-- Modelled from the spec (claim C7): "the maximum score percent observed
over the group's calls" — the plain maximum of the observed scores (0 for
an empty group). -/
def specMaxScore (g : List (Call × String)) : ℚ :=
  match g.map (fun p => getScorePercent p.1) with
  | [] => 0
  | s :: rest => rest.foldl max s

/-- Modelled from the spec (claim C7): "the last non-default detection
encountered when scanning the group in order", "default" if none. -/
def specChosenProduct (g : List (Call × String)) : String :=
  (((g.map (fun p => detectProduct p.1)).filter (fun s => s ≠ "default")).getLast?).getD
    "default"

/-! ### Concrete inputs used by counterexamples and witnesses -/

/-- A call whose only product signal is the spec's 25hp example text. -/
def call25 : Call := { id := "c25", note := some "this customer wants the 25hp model" }

/-- A call whose note matches the first hp pattern twice: the first
occurrence captures 999 (not a catalog key), the second captures 25. -/
def call999 : Call := { id := "c999", note := some "999hp 25hp" }

/-- A call with no `lead_score` at all. -/
def callNoScore : Call := { id := "ns" }

/-- A call whose numeric score is negative (scores are passed through
unclamped). -/
def callNegScore : Call := { id := "neg", lead_score := .num (-5) }

/-- A one-call group built from the negative-score call. -/
def gNeg : List (Call × String) := [(callNegScore, "G")]

/-- A call with a phone containing no digit at all. -/
def callDashPhone : Call :=
  { id := "d", gclid := some "GD", customer_phone_number := some "---" }

/-- A call with no phone field. -/
def callNoPhone : Call := { id := "n", gclid := some "GN" }

/-- The identity timestamp formatter used for concrete runs. -/
def fmt0 : String → String := fun s => s

/-! ### Helper lemmas -/

theorem foldl_pair {α β γ : Type} (f : α → γ → α) (h : β → γ → β) :
    ∀ (l : List γ) (a : α) (b : β),
      l.foldl (fun acc x => (f acc.1 x, h acc.2 x)) (a, b) = (l.foldl f a, l.foldl h b) := by
  intro l
  induction l with
  | nil => intro a b; rfl
  | cons x xs ih => intro a b; simpa using ih (f a x) (h b x)

theorem if_gt_eq_max (b s : ℚ) : (if s > b then s else b) = max b s := by
  rcases le_or_lt s b with h | h
  · simp [not_lt.2 h, max_eq_left h]
  · simp [h, max_eq_right h.le]

theorem getLastD_cons (x : String) (xs : List String) (a : String) :
    ((x :: xs).getLast?).getD a = (xs.getLast?).getD x := by
  cases xs with
  | nil => rfl
  | cons y ys =>
    rw [List.getLast?_cons_cons]
    cases h : (y :: ys).getLast? with
    | none => simp at h
    | some z => rfl

theorem foldl_last_nondefault :
    ∀ (l : List String) (a : String),
      l.foldl (fun bp pr => if pr ≠ "default" then pr else bp) a =
        ((l.filter (fun s => s ≠ "default")).getLast?).getD a := by
  intro l
  induction l with
  | nil => intro a; rfl
  | cons pr rest ih =>
    intro a
    rw [List.foldl_cons, List.filter_cons]
    by_cases hpr : pr = "default"
    · rw [if_neg (by simp [hpr]), if_neg (by simp [hpr]), ih]
    · rw [if_pos hpr, if_pos (by simp [hpr]), ih, getLastD_cons]

/-! ### Claim C2: tier classification bands -/

/-- C2: `getTier` returns very_good for p ≥ 80, good for 60 ≤ p < 80,
fair for 40 ≤ p < 60, poor for 20 ≤ p < 40, very_poor for p < 20, with
the lower bound of each band inclusive; in particular the boundary scores
20 and 80 classify as poor and very_good. -/
theorem tier_bands (p : ℚ) :
    (80 ≤ p → getTier p = .very_good) ∧
    (60 ≤ p ∧ p < 80 → getTier p = .good) ∧
    (40 ≤ p ∧ p < 60 → getTier p = .fair) ∧
    (20 ≤ p ∧ p < 40 → getTier p = .poor) ∧
    (p < 20 → getTier p = .very_poor) ∧
    getTier 20 = .poor ∧ getTier 80 = .very_good := by
  refine ⟨?_, ?_, ?_, ?_, ?_, by decide, by decide⟩ <;>
    · intro h
      unfold getTier
      split_ifs <;>
        first
          | rfl
          | (exfalso; obtain ⟨ha, hb⟩ := h; linarith)
          | (exfalso; linarith)

/-- Witness for C2 at the boundary input 80. -/
theorem tier_bands_witness : getTier 80 = .very_good :=
  (tier_bands 80).1 (by decide)

/-! ### Claim C7: group best score and chosen product -/

/-- C7 counterexample: for a group whose only call carries a negative
numeric score, the code's best score is 0 (the running maximum starts at
0), not the maximum score percent observed in the group, which is -5. -/
theorem best_score_counterexample :
    (groupBest gNeg).1 = 0 ∧ specMaxScore gNeg = -5 ∧
      (groupBest gNeg).1 ≠ specMaxScore gNeg := by decide

/-- C7 amended: the group's best score is the maximum of 0 and the score
percents observed over the group's calls in input order (so it equals the
maximum observed whenever any score is nonnegative), and the group's
chosen product is the last non-default detection encountered when
scanning the group in order, or "default" when there is none. -/
theorem group_best_characterization (g : List (Call × String)) :
    (groupBest g).1 = (g.map (fun p => getScorePercent p.1)).foldl max 0 ∧
    (groupBest g).2 = specChosenProduct g := by
  have hpair := foldl_pair
    (fun b (p : Call × String) => if getScorePercent p.1 > b then getScorePercent p.1 else b)
    (fun bp (p : Call × String) => if detectProduct p.1 ≠ "default" then detectProduct p.1 else bp)
    g 0 "default"
  constructor
  · have h1 : (groupBest g).1 =
        g.foldl (fun b p => if getScorePercent p.1 > b then getScorePercent p.1 else b) 0 := by
      rw [groupBest, hpair]
    rw [h1, List.foldl_map]
    have hfun : (fun (b : ℚ) (p : Call × String) =>
        if getScorePercent p.1 > b then getScorePercent p.1 else b) =
        fun b p => max b (getScorePercent p.1) := by
      funext b p
      exact if_gt_eq_max b (getScorePercent p.1)
    rw [hfun]
  · have h2 : (groupBest g).2 =
        g.foldl (fun bp p => if detectProduct p.1 ≠ "default" then detectProduct p.1 else bp)
          "default" := by
      rw [groupBest, hpair]
    rw [h2, specChosenProduct, ← List.foldl_map (fun p : Call × String => detectProduct p.1)
      (fun bp pr => if pr ≠ "default" then pr else bp) g "default",
      foldl_last_nondefault]

/-! ### Claim C10: phones with no digits normalize to "" -/

/-- C10: a nonempty phone string containing no digit normalizes to the
empty string rather than "unknown"; only a falsy (absent or empty) phone
yields "unknown", and the empty-string caller bucket is distinct from the
"unknown" bucket (shown on a concrete two-call run). -/
theorem normalize_phone_no_digits (s : String) (hne : s ≠ "")
    (hnd : ∀ ch ∈ s.data, ¬ ch.isDigit) :
    normalizePhone (some s) = "" ∧
    normalizePhone none = "unknown" ∧
    normalizePhone (some "") = "unknown" ∧
    ("" : String) ≠ "unknown" ∧
    (callerGroups (withGclidPairs [callDashPhone, callNoPhone])).map Prod.fst =
      ["", "unknown"] := by
  refine ⟨?_, rfl, rfl, by decide, by decide⟩
  have hfil : s.data.filter Char.isDigit = [] := by
    rw [List.filter_eq_nil_iff]
    intro ch hch
    simpa using hnd ch hch
  rw [normalizePhone]
  simp [hne, hfil]

/-- Witness for C10 at the phone "---". -/
theorem normalize_phone_no_digits_witness : normalizePhone (some "---") = "" :=
  (normalize_phone_no_digits "---" (by decide) (by decide)).1

/-! ### Claim C4: lead-score normalization -/

/-- C4: `getScorePercent` returns 30 for an absent or falsy score; for a
structured value it returns the percent sub-field, falling back to the
score sub-field, falling back to 30 (fallback on falsy sub-fields); a
truthy numeric score is passed through unclamped; a string maps
{very_poor 10, poor 30, fair 50, good 70, very_good 90} case-insensitively
with unrecognized strings giving 30, so "Good" yields 70. -/
theorem score_percent_cases (c : Call) :
    (c.lead_score = .absent → getScorePercent c = 30) ∧
    (c.lead_score = .num 0 → getScorePercent c = 30) ∧
    (c.lead_score = .str "" → getScorePercent c = 30) ∧
    (∀ n : ℚ, c.lead_score = .num n → n ≠ 0 → getScorePercent c = n) ∧
    (∀ p sc v, c.lead_score = .obj (some p) sc v → p ≠ 0 → getScorePercent c = p) ∧
    (∀ po sc v q, c.lead_score = .obj po sc v → (po = none ∨ po = some 0) →
      sc = some q → q ≠ 0 → getScorePercent c = q) ∧
    (∀ po sc v, c.lead_score = .obj po sc v → (po = none ∨ po = some 0) →
      (sc = none ∨ sc = some 0) → getScorePercent c = 30) ∧
    (∀ s, c.lead_score = .str s → toLowerStr s = "very_poor" → getScorePercent c = 10) ∧
    (∀ s, c.lead_score = .str s → toLowerStr s = "poor" → getScorePercent c = 30) ∧
    (∀ s, c.lead_score = .str s → toLowerStr s = "fair" → getScorePercent c = 50) ∧
    (∀ s, c.lead_score = .str s → toLowerStr s = "good" → getScorePercent c = 70) ∧
    (∀ s, c.lead_score = .str s → toLowerStr s = "very_good" → getScorePercent c = 90) ∧
    (∀ s, c.lead_score = .str s → s ≠ "" →
      toLowerStr s ∉ (["very_poor", "poor", "fair", "good", "very_good"] : List String) →
      getScorePercent c = 30) := by
  have hstr : ∀ s : String, s ≠ "" → getScorePercent { c with lead_score := .str s } =
      scoreStringMap (toLowerStr s) := by
    intro s hs
    simp [getScorePercent, hs]
  refine ⟨?_, ?_, ?_, ?_, ?_, ?_, ?_, ?_, ?_, ?_, ?_, ?_, ?_⟩
  · intro h; simp [getScorePercent, h]
  · intro h; simp [getScorePercent, h]
  · intro h; simp [getScorePercent, h]
  · intro n h hn; simp [getScorePercent, h, hn]
  · intro p sc v h hp; simp [getScorePercent, h, hp]
  · intro po sc v q h hpo hq hq0
    rcases hpo with hpo | hpo <;> subst hpo <;> subst hq <;>
      simp [getScorePercent, h, hq0]
  · intro po sc v h hpo hsc
    rcases hpo with hpo | hpo <;> subst hpo <;>
      rcases hsc with hsc | hsc <;> subst hsc <;>
        simp [getScorePercent, h]
  · intro s h hlow
    have hs : s ≠ "" := by intro he; rw [he] at hlow; exact absurd hlow (by decide)
    simp [getScorePercent, h, hs, scoreStringMap, hlow]
  · intro s h hlow
    have hs : s ≠ "" := by intro he; rw [he] at hlow; exact absurd hlow (by decide)
    simp [getScorePercent, h, hs, scoreStringMap, hlow]
  · intro s h hlow
    have hs : s ≠ "" := by intro he; rw [he] at hlow; exact absurd hlow (by decide)
    simp [getScorePercent, h, hs, scoreStringMap, hlow]
  · intro s h hlow
    have hs : s ≠ "" := by intro he; rw [he] at hlow; exact absurd hlow (by decide)
    simp [getScorePercent, h, hs, scoreStringMap, hlow]
  · intro s h hlow
    have hs : s ≠ "" := by intro he; rw [he] at hlow; exact absurd hlow (by decide)
    simp [getScorePercent, h, hs, scoreStringMap, hlow]
  · intro s h hs hmem
    simp only [List.mem_cons, List.mem_singleton, not_or] at hmem
    obtain ⟨h1, h2, h3, h4, h5⟩ := by simpa using hmem
    simp [getScorePercent, h, hs, scoreStringMap, h1, h2, h3, h4, h5]

/-- Witness for C4: the string "Good" yields 70. -/
theorem score_percent_cases_witness :
    getScorePercent { lead_score := LeadScore.str "Good" } = 70 :=
  (score_percent_cases { lead_score := LeadScore.str "Good" }).2.2.2.2.2.2.2.2.2.2.1
    "Good" rfl (by decide)

/-! ### Claim C3: the two sibling tier computations disagree -/

/-- C3 counterexample: on a call with no lead-score field, the spreadsheet
variant's `calculateValue` assigns tier very_poor (its percent defaults to
0), while the caller-aggregating variant's `getTier (getScorePercent c)`
assigns poor (its percent defaults to 30). -/
theorem sheet_tier_counterexample :
    (calculateValue callNoScore).tier = Tier.very_poor ∧
    getTier (getScorePercent callNoScore) = Tier.poor ∧
    (calculateValue callNoScore).tier ≠ getTier (getScorePercent callNoScore) := by
  decide

/-- C3 amended: the two sibling tier computations agree on calls whose
lead score is a structured object with a truthy percent sub-field and no
recognized value string (for such calls `calculateValue`'s cascade reduces
to the same threshold bands as `getTier (getScorePercent c)`); on other
score shapes, such as an absent score, they may disagree. -/
theorem sheet_tier_agree (c : Call) (p : ℚ) (sc : Option ℚ) (v : Option String)
    (h : c.lead_score = .obj (some p) sc v) (hp : p ≠ 0)
    (hv : sheetScoreValue c.lead_score ∉
      (["very_poor", "poor", "fair", "good", "very_good"] : List String)) :
    (calculateValue c).tier = getTier (getScorePercent c) := by
  simp only [List.mem_cons, List.mem_singleton, not_or] at hv
  obtain ⟨h1, h2, h3, h4, h5⟩ := by simpa using hv
  have hpercent : sheetScorePercent c.lead_score = p := by
    rw [h, sheetScorePercent]
  have hscore : getScorePercent c = p := by simp [getScorePercent, h, hp]
  rw [calculateValue]
  simp only [hscore]
  rw [sheetTier]
  simp only [hpercent, h1, h2, h3, h4, h5, false_or]
  unfold getTier
  split_ifs <;> first | rfl | (exfalso; linarith)

/-- Witness for C3 at a structured score of 85 percent. -/
theorem sheet_tier_agree_witness :
    (calculateValue { lead_score := LeadScore.obj (some 85) none none }).tier =
      getTier (getScorePercent { lead_score := LeadScore.obj (some 85) none none }) :=
  sheet_tier_agree { lead_score := LeadScore.obj (some 85) none none } 85 none none
    rfl (by decide) (by decide)

/-! ### Claim C6: product detection from the search blob -/

/-- A capture string that is a truthy catalog entry (`CONFIG.products[hp]`
is truthy). -/
def inCatalog (s : String) : Prop := ∃ v, productsGet s = some v ∧ v ≠ 0

/-- A pattern contributes nothing: either it has no match in the blob, or
its first match's capture is not a truthy catalog entry. -/
def patMiss (lits : List (List Char)) (b : List Char) : Prop :=
  ∀ ds, findCapture lits b = some ds → ¬ inCatalog (String.mk ds)

theorem tryPatterns_skip (text : List Char) (pat : List (List Char))
    (rest : List (List (List Char))) (h : patMiss pat text) :
    tryPatterns text (pat :: rest) = tryPatterns text rest := by
  cases hc : findCapture pat text with
  | none => simp [tryPatterns, hc]
  | some ds =>
    have hnc := h ds hc
    cases hg : productsGet (String.mk ds) with
    | none => simp [tryPatterns, hc, hg]
    | some v =>
      have hv : v = 0 := by
        by_contra hne
        exact hnc ⟨v, hg, hne⟩
      simp [tryPatterns, hc, hg, hv]

theorem tryPatterns_hit (text : List Char) (pat : List (List Char))
    (rest : List (List (List Char))) (ds : List Char)
    (hc : findCapture pat text = some ds) (hin : inCatalog (String.mk ds)) :
    tryPatterns text (pat :: rest) = String.mk ds := by
  obtain ⟨v, hg, hv⟩ := hin
  simp [tryPatterns, hc, hg, hv]

/-- C6 counterexample: in the blob "999hp 25hp" the first pattern's first
match captures 999, which is not a catalog key; the code does not keep
scanning the remaining text for that pattern, so it returns "default",
while the claimed reading (continue through the text past a non-catalog
capture) would return "25". -/
theorem detect_product_counterexample :
    detectProduct call999 = "default" ∧ detectProductClaimed call999 = "25" ∧
      detectProduct call999 ≠ detectProductClaimed call999 := by decide

/-- C6 amended: `detectProduct` concatenates transcript, note and tag
names into one lowercased blob and tries the three hp patterns in listed
order, where each pattern is given only its first match in the blob: if
that match's capture is a catalog key it is returned, otherwise the
pattern is abandoned (later occurrences of the same pattern in the text
are not retried) and the remaining patterns are tried against the whole
blob; "default" is returned when every pattern misses; the spec's example
text "this customer wants the 25hp model" yields product "25". -/
theorem detect_product_pattern_order (c : Call) :
    (∀ ds, findCapture [litHp] (blobOf c) = some ds → inCatalog (String.mk ds) →
      detectProduct c = String.mk ds) ∧
    (patMiss [litHp] (blobOf c) →
      ∀ ds, findCapture [litHorse, litPower] (blobOf c) = some ds →
        inCatalog (String.mk ds) → detectProduct c = String.mk ds) ∧
    (patMiss [litHp] (blobOf c) → patMiss [litHorse, litPower] (blobOf c) →
      ∀ ds, findCapture [litHorsepower] (blobOf c) = some ds →
        inCatalog (String.mk ds) → detectProduct c = String.mk ds) ∧
    ((∀ pat ∈ hpPatterns, patMiss pat (blobOf c)) → detectProduct c = "default") ∧
    detectProduct call25 = "25" := by
  refine ⟨?_, ?_, ?_, ?_, by decide⟩
  · intro ds hc hin
    rw [detectProduct, hpPatterns]
    exact tryPatterns_hit _ _ _ _ hc hin
  · intro h1 ds hc hin
    rw [detectProduct, hpPatterns, tryPatterns_skip _ _ _ h1]
    exact tryPatterns_hit _ _ _ _ hc hin
  · intro h1 h2 ds hc hin
    rw [detectProduct, hpPatterns, tryPatterns_skip _ _ _ h1, tryPatterns_skip _ _ _ h2]
    exact tryPatterns_hit _ _ _ _ hc hin
  · intro hall
    rw [detectProduct, hpPatterns,
      tryPatterns_skip _ _ _ (hall [litHp] (by simp [hpPatterns])),
      tryPatterns_skip _ _ _ (hall [litHorse, litPower] (by simp [hpPatterns])),
      tryPatterns_skip _ _ _ (hall [litHorsepower] (by simp [hpPatterns]))]
    rfl

/-- Witness for C6: the 25hp example text through the first pattern. -/
theorem detect_product_pattern_order_witness : detectProduct call25 = "25" :=
  (detect_product_pattern_order call25).1 ['2', '5'] (by decide)
    ⟨3495, by decide, by decide⟩

/-! ### Closed forms of the group loop -/

theorem foldl_stepGroup (fmt : String → String) :
    ∀ (gs : List (String × List (Call × String))) (acc : RunResult),
      (gs.foldl (stepGroup fmt) acc).conversions
          = acc.conversions ++ concatAll (gs.map (groupEmit fmt)) ∧
      (gs.foldl (stepGroup fmt) acc).stats.totalCalls = acc.stats.totalCalls ∧
      (gs.foldl (stepGroup fmt) acc).stats.withGclid = acc.stats.withGclid ∧
      (gs.foldl (stepGroup fmt) acc).stats.zeroValue = acc.stats.zeroValue +
        (gs.map (fun kg => if groupTotalValue kg.2 ≤ 0 then kg.2.length else 0)).sum ∧
      (gs.foldl (stepGroup fmt) acc).stats.withValue = acc.stats.withValue +
        (gs.map (fun kg => if groupTotalValue kg.2 ≤ 0 then 0 else kg.2.length)).sum := by
  intro gs
  induction gs with
  | nil => intro acc; simp [concatAll]
  | cons kg rest ih =>
    intro acc
    by_cases h : groupTotalValue kg.2 ≤ 0
    · have hstep : stepGroup fmt acc kg =
          { conversions := acc.conversions
            stats := { acc.stats with zeroValue := acc.stats.zeroValue + kg.2.length } } := by
        simp [stepGroup, h]
      obtain ⟨ih1, ih2, ih3, ih4, ih5⟩ := ih (stepGroup fmt acc kg)
      rw [hstep] at ih1 ih2 ih3 ih4 ih5
      refine ⟨?_, ?_, ?_, ?_, ?_⟩
      · rw [List.foldl_cons, hstep, ih1]
        simp [concatAll, groupEmit, h]
      · rw [List.foldl_cons, hstep, ih2]
      · rw [List.foldl_cons, hstep, ih3]
      · rw [List.foldl_cons, hstep, ih4]
        simp [h]
        omega
      · rw [List.foldl_cons, hstep, ih5]
        simp [h]
    · have hstep : stepGroup fmt acc kg =
          { conversions := acc.conversions ++ groupConversions fmt kg.2
            stats := { acc.stats with
              withValue := acc.stats.withValue + kg.2.length
              totalValue := acc.stats.totalValue + (kg.2.length : ℚ) * perCallValue kg.2 } } := by
        simp [stepGroup, h]
      obtain ⟨ih1, ih2, ih3, ih4, ih5⟩ := ih (stepGroup fmt acc kg)
      rw [hstep] at ih1 ih2 ih3 ih4 ih5
      refine ⟨?_, ?_, ?_, ?_, ?_⟩
      · rw [List.foldl_cons, hstep, ih1]
        simp [concatAll, groupEmit, h]
      · rw [List.foldl_cons, hstep, ih2]
      · rw [List.foldl_cons, hstep, ih3]
      · rw [List.foldl_cons, hstep, ih4]
        simp [h]
      · rw [List.foldl_cons, hstep, ih5]
        simp [h]
        omega

theorem processCalls_conversions (fmt : String → String) (calls : List Call) :
    (processCalls fmt calls).conversions =
      concatAll ((callerGroups (withGclidPairs calls)).map (groupEmit fmt)) := by
  rw [processCalls]
  rw [(foldl_stepGroup fmt (callerGroups (withGclidPairs calls)) _).1]
  simp

theorem processCalls_stats (fmt : String → String) (calls : List Call) :
    (processCalls fmt calls).stats.totalCalls = calls.length ∧
    (processCalls fmt calls).stats.withGclid = (withGclidPairs calls).length ∧
    (processCalls fmt calls).stats.zeroValue =
      ((callerGroups (withGclidPairs calls)).map
        (fun kg => if groupTotalValue kg.2 ≤ 0 then kg.2.length else 0)).sum ∧
    (processCalls fmt calls).stats.withValue =
      ((callerGroups (withGclidPairs calls)).map
        (fun kg => if groupTotalValue kg.2 ≤ 0 then 0 else kg.2.length)).sum := by
  obtain ⟨_, h2, h3, h4, h5⟩ :=
    foldl_stepGroup fmt (callerGroups (withGclidPairs calls))
      { conversions := []
        stats :=
          { totalCalls := calls.length
            withGclid := (withGclidPairs calls).length
            withValue := 0
            zeroValue := 0
            totalValue := 0 } }
  exact ⟨h2, h3, by simpa using h4, by simpa using h5⟩

theorem mem_concatAll {α : Type} {x : α} :
    ∀ {ls : List (List α)}, x ∈ concatAll ls ↔ ∃ l ∈ ls, x ∈ l := by
  intro ls
  induction ls with
  | nil => simp [concatAll]
  | cons l rest ih => simp [concatAll, List.mem_append, ih]

/-- Every emitted conversion originates from an input call that yielded a
click identifier; its id, gclid and timestamp are that call's. -/
theorem conversion_source (fmt : String → String) (calls : List Call)
    (conv : Conversion) (h : conv ∈ (processCalls fmt calls).conversions) :
    ∃ c ∈ calls, extractGclid c = some conv.gclid ∧ conv.callId = c.id ∧
      conv.conversionTime = fmt c.start_time := by
  rw [processCalls_conversions, mem_concatAll] at h
  obtain ⟨l, hl, hc⟩ := h
  rw [List.mem_map] at hl
  obtain ⟨kg, hkg, rfl⟩ := hl
  rw [groupEmit] at hc
  by_cases ht : groupTotalValue kg.2 ≤ 0
  · rw [if_pos ht] at hc
    simp at hc
  · rw [if_neg ht, groupConversions, List.mem_map] at hc
    obtain ⟨p, hp, rfl⟩ := hc
    rw [callerGroups, List.mem_map] at hkg
    obtain ⟨k, _, rfl⟩ := hkg
    have hpairs : p ∈ withGclidPairs calls := (List.mem_filter.1 hp).1
    rw [withGclidPairs, List.mem_filterMap] at hpairs
    obtain ⟨c, hcmem, hfc⟩ := hpairs
    cases he : extractGclid c with
    | none => rw [he] at hfc; simp at hfc
    | some g =>
      rw [he] at hfc
      have hfc2 : p = (c, g) := by simpa using hfc.symm
      subst hfc2
      exact ⟨c, hcmem, by simp [mkConversion, he], by simp [mkConversion], by simp [mkConversion]⟩

/-! ### The caller groups partition the identifier-bearing pairs -/

theorem mem_insertKey (ks : List String) (k : String) : k ∈ insertKey ks k := by
  by_cases h : k ∈ ks <;> simp [insertKey, h]

theorem subset_insertKey (ks : List String) (k : String) : ks ⊆ insertKey ks k := by
  by_cases h : k ∈ ks <;> simp [insertKey, h]

theorem nodup_insertKey (ks : List String) (k : String) (h : ks.Nodup) :
    (insertKey ks k).Nodup := by
  by_cases hk : k ∈ ks
  · simpa [insertKey, hk] using h
  · simp [insertKey, hk, List.nodup_append, h]

theorem nodup_foldl_insertKey :
    ∀ (pairs : List (Call × String)) (ks : List String), ks.Nodup →
      (pairs.foldl (fun ks p => insertKey ks (keyOf p)) ks).Nodup := by
  intro pairs
  induction pairs with
  | nil => intro ks h; exact h
  | cons p rest ih =>
    intro ks h
    exact ih (insertKey ks (keyOf p)) (nodup_insertKey ks (keyOf p) h)

theorem subset_foldl_insertKey :
    ∀ (pairs : List (Call × String)) (ks : List String),
      ks ⊆ pairs.foldl (fun ks p => insertKey ks (keyOf p)) ks := by
  intro pairs
  induction pairs with
  | nil => intro ks; exact fun a h => h
  | cons p rest ih =>
    intro ks
    exact fun a ha => ih (insertKey ks (keyOf p)) (subset_insertKey ks (keyOf p) ha)

theorem keyOf_mem_foldl_insertKey :
    ∀ (pairs : List (Call × String)) (ks : List String) (p : Call × String), p ∈ pairs →
      keyOf p ∈ pairs.foldl (fun ks q => insertKey ks (keyOf q)) ks := by
  intro pairs
  induction pairs with
  | nil => intro ks p h; simp at h
  | cons q rest ih =>
    intro ks p h
    rcases List.mem_cons.1 h with rfl | hmem
    · exact subset_foldl_insertKey rest (insertKey ks (keyOf p))
        (mem_insertKey ks (keyOf p))
    · exact ih (insertKey ks (keyOf q)) p hmem

theorem nodup_insertionKeys (pairs : List (Call × String)) : (insertionKeys pairs).Nodup :=
  nodup_foldl_insertKey pairs [] List.nodup_nil

theorem keyOf_mem_insertionKeys (pairs : List (Call × String)) (p : Call × String)
    (h : p ∈ pairs) : keyOf p ∈ insertionKeys pairs :=
  keyOf_mem_foldl_insertKey pairs [] p h

theorem forInKeys_perm (pairs : List (Call × String)) :
    List.Perm (forInKeys pairs) (insertionKeys pairs) := by
  rw [forInKeys]
  refine List.Perm.trans ?_ (List.filter_append_perm isArrayIndexKey (insertionKeys pairs))
  exact List.Perm.append_right _ (List.perm_insertionSort _ _)

theorem nodup_forInKeys (pairs : List (Call × String)) : (forInKeys pairs).Nodup :=
  ((forInKeys_perm pairs).nodup_iff).2 (nodup_insertionKeys pairs)

theorem keyOf_mem_forInKeys (pairs : List (Call × String)) (p : Call × String)
    (h : p ∈ pairs) : keyOf p ∈ forInKeys pairs :=
  ((forInKeys_perm pairs).mem_iff).2 (keyOf_mem_insertionKeys pairs p h)

theorem length_filter_split {α : Type} (l : List α) (p : α → Bool) :
    (l.filter p).length + (l.filter (fun a => !p a)).length = l.length := by
  induction l with
  | nil => rfl
  | cons a rest ih =>
    cases h : p a <;> simp [List.filter_cons, h] <;> omega

theorem sum_groupOf_length :
    ∀ (ks : List String) (pairs : List (Call × String)), ks.Nodup →
      (∀ p ∈ pairs, keyOf p ∈ ks) →
      (ks.map (fun k => (groupOf pairs k).length)).sum = pairs.length := by
  intro ks
  induction ks with
  | nil =>
    intro pairs _ hcov
    cases pairs with
    | nil => rfl
    | cons p rest => exact absurd (hcov p (by simp)) (by simp)
  | cons k rest ih =>
    intro pairs hnd hcov
    have hknr : k ∉ rest := (List.nodup_cons.1 hnd).1
    have hndr : rest.Nodup := (List.nodup_cons.1 hnd).2
    have hrest : ∀ k' ∈ rest,
        groupOf pairs k' = groupOf (pairs.filter (fun p => !(keyOf p == k))) k' := by
      intro k' hk'
      have hkk : k' ≠ k := fun he => hknr (he ▸ hk')
      rw [groupOf, groupOf, List.filter_filter]
      apply List.filter_congr
      intro p _
      cases hpk : keyOf p == k' with
      | false => simp [hpk]
      | true =>
        have : keyOf p = k' := by simpa using hpk
        simp [hpk, this, hkk]
    have hcov2 : ∀ p ∈ pairs.filter (fun p => !(keyOf p == k)), keyOf p ∈ rest := by
      intro p hp
      obtain ⟨hmem, hcond⟩ := List.mem_filter.1 hp
      have : keyOf p ≠ k := by simpa using hcond
      rcases List.mem_cons.1 (hcov p hmem) with he | hr
      · exact absurd he this
      · exact hr
    have hrestLen : ∀ k' ∈ rest, (groupOf pairs k').length =
        (groupOf (pairs.filter (fun p => !(keyOf p == k))) k').length := by
      intro k' hk'
      rw [hrest k' hk']
    rw [List.map_cons, List.sum_cons,
      List.map_congr_left hrestLen,
      ih (pairs.filter (fun p => !(keyOf p == k))) hndr hcov2]
    rw [groupOf]
    have := length_filter_split pairs (fun p => keyOf p == k)
    omega

theorem sum_group_lengths (pairs : List (Call × String)) :
    ((callerGroups pairs).map (fun kg => kg.2.length)).sum = pairs.length := by
  rw [callerGroups, List.map_map]
  exact sum_groupOf_length (forInKeys pairs) pairs (nodup_forInKeys pairs)
    (keyOf_mem_forInKeys pairs)

/-! ### Arithmetic facts about the rounding -/

theorem abs_round2_sub (q : ℚ) : |round2 q - q| ≤ 1 / 200 := by
  have h1 : (jsRound (q * 100) : ℚ) ≤ q * 100 + 1 / 2 := by
    rw [jsRound]
    exact_mod_cast Int.floor_le (q * 100 + 1 / 2)
  have h2 : q * 100 + 1 / 2 - 1 < (jsRound (q * 100) : ℚ) := by
    rw [jsRound]
    exact_mod_cast Int.sub_one_lt_floor (q * 100 + 1 / 2)
  rw [round2, abs_le]
  constructor <;> linarith

theorem sum_map_const_rat {α : Type} (l : List α) (q : ℚ) :
    (l.map (fun _ => q)).sum = (l.length : ℚ) * q := by
  induction l with
  | nil => simp
  | cons a rest ih =>
    simp [ih]
    ring

theorem sum_map_add_nat {α : Type} (l : List α) (f g : α → ℕ) :
    (l.map f).sum + (l.map g).sum = (l.map (fun x => f x + g x)).sum := by
  induction l with
  | nil => rfl
  | cons a rest ih =>
    simp only [List.map_cons, List.sum_cons]
    omega

theorem withGclidPairs_length (calls : List Call) :
    (withGclidPairs calls).length =
      (calls.filter (fun c => (extractGclid c).isSome)).length := by
  induction calls with
  | nil => rfl
  | cons c rest ih =>
    cases h : extractGclid c <;>
      simp [withGclidPairs, List.filterMap_cons, h, List.filter_cons] <;>
        simpa [withGclidPairs] using ih

theorem filter_isSome_isNone (calls : List Call) :
    (calls.filter (fun c => (extractGclid c).isSome)).length +
      (calls.filter (fun c => (extractGclid c).isNone)).length = calls.length := by
  have hfun : (fun c => !(extractGclid c).isSome) = fun c => (extractGclid c).isNone := by
    funext c
    cases extractGclid c <;> rfl
  have := length_filter_split calls (fun c => (extractGclid c).isSome)
  rw [hfun] at this
  exact this

/-! ### Claim C8: rounding discrepancy bound -/

/-- C8: for a nonempty caller group with positive total value, the sum of
the emitted per-call values differs from the total value by at most
`groupSize * 0.005` (the discrepancy is accepted, not corrected), and
every conversion of the group carries the same tier and product. -/
theorem group_rounding_bound (fmt : String → String) (g : List (Call × String))
    (hne : g ≠ []) (_hpos : 0 < groupTotalValue g) :
    |((groupConversions fmt g).map (fun conv => conv.conversionValue)).sum -
        groupTotalValue g| ≤ (g.length : ℚ) * (5 / 1000) ∧
    ∀ conv ∈ groupConversions fmt g,
      conv.tier = groupTier g ∧ conv.product = groupProduct g := by
  constructor
  · have hsum : ((groupConversions fmt g).map (fun conv => conv.conversionValue)).sum =
        (g.length : ℚ) * perCallValue g := by
      rw [groupConversions, List.map_map]
      have hcomp : ((fun conv => conv.conversionValue) ∘ mkConversion fmt g) =
          fun _ : Call × String => perCallValue g := by
        funext p
        rfl
      rw [hcomp, sum_map_const_rat]
    have hlen : (0 : ℚ) < (g.length : ℚ) := by
      have hpt : 0 < g.length := List.length_pos.2 hne
      exact_mod_cast hpt
    have hdiv : (g.length : ℚ) * (groupTotalValue g / (g.length : ℚ)) =
        groupTotalValue g := mul_div_cancel₀ _ (ne_of_gt hlen)
    have hsplit : (g.length : ℚ) * perCallValue g - groupTotalValue g =
        (g.length : ℚ) * (perCallValue g - groupTotalValue g / (g.length : ℚ)) := by
      rw [mul_sub, hdiv]
    rw [hsum, hsplit, abs_mul, abs_of_pos hlen]
    have habs : |perCallValue g - groupTotalValue g / (g.length : ℚ)| ≤ 1 / 200 :=
      abs_round2_sub (groupTotalValue g / (g.length : ℚ))
    have h200 : (5 : ℚ) / 1000 = 1 / 200 := by norm_num
    rw [h200]
    exact mul_le_mul_of_nonneg_left habs (le_of_lt hlen)
  · intro conv hconv
    rw [groupConversions, List.mem_map] at hconv
    obtain ⟨p, _, rfl⟩ := hconv
    exact ⟨rfl, rfl⟩

/-- A one-call and a two-call concrete run used by witnesses: numeric
score 85, no phone, direct identifiers. -/
def callW : Call := { id := "a", gclid := some "GA", lead_score := .num 85 }

def callW2 : Call := { id := "b", gclid := some "GB", lead_score := .num 85 }

/-- The two-pair group of the witness calls. -/
def gW : List (Call × String) := [(callW, "GA"), (callW2, "GB")]

/-- The single conversion the pipeline emits on `[callW]`. -/
def convW : Conversion :=
  { gclid := "GA", conversionName := "Phone Call", conversionTime := "",
    conversionValue := 3500, currency := "USD", callId := "a", phone := "",
    tier := .very_good, product := "default", productPrice := 3500,
    campaign := "", source := "", duration := 0, leadScore := 85 }

/-- Witness for C8 on the two-call group. -/
theorem group_rounding_bound_witness :
    |((groupConversions fmt0 gW).map (fun conv => conv.conversionValue)).sum -
        groupTotalValue gW| ≤ (gW.length : ℚ) * (5 / 1000) :=
  (group_rounding_bound fmt0 gW (by decide) (by decide)).1

/-! ### Claim C1: per-group zeroing or even split -/

/-- C1: the pipeline's conversions are exactly the concatenation of the
per-group emissions; a group with non-positive total value emits nothing
and adds its call count to the zeroValue counter, and a group with
positive total value emits exactly one conversion per call, each carrying
`round2(totalValue / groupSize)` and the group-level tier and product. -/
theorem group_value_split (fmt : String → String) (calls : List Call) :
    (processCalls fmt calls).conversions =
      concatAll ((callerGroups (withGclidPairs calls)).map (groupEmit fmt)) ∧
    (processCalls fmt calls).stats.zeroValue =
      ((callerGroups (withGclidPairs calls)).map
        (fun kg => if groupTotalValue kg.2 ≤ 0 then kg.2.length else 0)).sum ∧
    (∀ k g, groupTotalValue g ≤ 0 → groupEmit fmt (k, g) = []) ∧
    (∀ k g, 0 < groupTotalValue g →
      groupEmit fmt (k, g) = g.map (mkConversion fmt g) ∧
      (groupEmit fmt (k, g)).length = g.length ∧
      ∀ conv ∈ groupEmit fmt (k, g),
        conv.conversionValue = round2 (groupTotalValue g / (g.length : ℚ)) ∧
        conv.tier = getTier (groupBest g).1 ∧ conv.product = (groupBest g).2) := by
  refine ⟨processCalls_conversions fmt calls, (processCalls_stats fmt calls).2.2.1,
    ?_, ?_⟩
  · intro k g h
    rw [groupEmit, if_pos h]
  · intro k g h
    have hemit : groupEmit fmt (k, g) = g.map (mkConversion fmt g) := by
      rw [groupEmit, if_neg (not_le.2 h), groupConversions]
    refine ⟨hemit, by rw [hemit, List.length_map], ?_⟩
    intro conv hconv
    rw [hemit, List.mem_map] at hconv
    obtain ⟨p, _, rfl⟩ := hconv
    exact ⟨rfl, rfl, rfl⟩

/-- Witness for C1 on the two-call positive-value group. -/
theorem group_value_split_witness :
    (groupEmit fmt0 ("unknown", gW)).length = gW.length :=
  ((group_value_split fmt0 [callW, callW2]).2.2.2 "unknown" gW (by decide)).2.1

/-! ### Claim C5: the run counters reconcile -/

/-- C5: after a run, totalCalls equals withGclid plus the number of calls
lacking an identifier, withGclid equals withValue plus zeroValue, withGclid
counts exactly the identifier-bearing calls, and every emitted conversion
originates from an identifier-bearing input call (a call with no
identifier produces no conversion). -/
theorem stats_reconcile (fmt : String → String) (calls : List Call) :
    (processCalls fmt calls).stats.totalCalls =
      (processCalls fmt calls).stats.withGclid +
        (calls.filter (fun c => (extractGclid c).isNone)).length ∧
    (processCalls fmt calls).stats.withGclid =
      (processCalls fmt calls).stats.withValue +
        (processCalls fmt calls).stats.zeroValue ∧
    (processCalls fmt calls).stats.withGclid =
      (calls.filter (fun c => (extractGclid c).isSome)).length ∧
    ∀ conv ∈ (processCalls fmt calls).conversions,
      ∃ c ∈ calls, extractGclid c = some conv.gclid ∧ conv.callId = c.id := by
  obtain ⟨h1, h2, h3, h4⟩ := processCalls_stats fmt calls
  refine ⟨?_, ?_, ?_, ?_⟩
  · rw [h1, h2, withGclidPairs_length]
    have := filter_isSome_isNone calls
    omega
  · rw [h2, h3, h4, sum_map_add_nat]
    have hfun : (fun kg : String × List (Call × String) =>
        (if groupTotalValue kg.2 ≤ 0 then 0 else kg.2.length) +
          (if groupTotalValue kg.2 ≤ 0 then kg.2.length else 0)) =
        fun kg => kg.2.length := by
      funext kg
      split_ifs <;> omega
    rw [hfun, sum_group_lengths]
  · rw [h2, withGclidPairs_length]
  · intro conv hconv
    obtain ⟨c, hc, he, hid, _⟩ := conversion_source fmt calls conv hconv
    exact ⟨c, hc, he, hid⟩

/-- Witness for C5: the one emitted conversion of `[callW]` comes from
`callW`. -/
theorem stats_reconcile_witness :
    ∃ c ∈ [callW], extractGclid c = some convW.gclid ∧ convW.callId = c.id :=
  (stats_reconcile fmt0 [callW]).2.2.2 convW (by decide)

/-! ### Claim C9: two-run determinism -/

/-- C9: the processing stage is a pure function of the fetched calls (and
the fixed formatter): running it twice on the same input yields the same
conversion list; and every conversion's timestamp is derived from its own
call's start time via the formatter, not from the run time. -/
theorem run_deterministic (fmt : String → String) (calls : List Call) :
    processCalls fmt calls = processCalls fmt calls ∧
    ∀ conv ∈ (processCalls fmt calls).conversions,
      ∃ c ∈ calls, conv.callId = c.id ∧ conv.conversionTime = fmt c.start_time := by
  refine ⟨rfl, ?_⟩
  intro conv hconv
  obtain ⟨c, hc, _, hid, htime⟩ := conversion_source fmt calls conv hconv
  exact ⟨c, hc, hid, htime⟩

/-- Witness for C9: the emitted conversion of `[callW]` carries the
formatted start time of `callW`. -/
theorem run_deterministic_witness :
    ∃ c ∈ [callW], convW.callId = c.id ∧ convW.conversionTime = fmt0 c.start_time :=
  (run_deterministic fmt0 [callW]).2 convW (by decide)

end CallrailGads
